import Mathlib

/-!
Shallow embedding of the bedUtils core data structures: the tabular
record/table abstraction from TabFile.py (TabDataLine, TabFile) and the
sorted probeset index from microarraytowig.py (IndexedProbesets), together
with theorems settling the specification claims about them.

Python strings are modelled as lists of characters, Python exceptions as
explicit error results, and dynamically typed arguments as a tagged value
type.
-/

/-- Python strings are modelled as lists of characters. -/
abbrev Chars := List Char

/-- The characters stripped by Python str.strip() with no arguments. -/
def isPySpace (c : Char) : Bool :=
  c == ' ' || c == '\t' || c == '\n' || c == '\r' || c == '\x0b' || c == '\x0c'

/-- Python str.lstrip: drop matching characters from the left end. -/
def stripLeft (p : Char → Bool) (l : Chars) : Chars := l.dropWhile p

/-- Python str.rstrip: drop matching characters from the right end. -/
def stripRight (p : Char → Bool) (l : Chars) : Chars := (l.reverse.dropWhile p).reverse

/-- Python str.strip with a character set: drop matching characters from both ends. -/
def stripBoth (p : Char → Bool) (l : Chars) : Chars := stripRight p (stripLeft p l)

/-- Python str.strip() with no arguments: strip whitespace from both ends. -/
def pyStrip (l : Chars) : Chars := stripBoth isPySpace l

/-- Python str.split with a one-character separator, specialised to the tab
separator used throughout TabFile.py: consecutive separators yield empty
fields and the result is never the empty list. -/
def splitTab : Chars → List Chars
  | [] => [[]]
  | c :: cs =>
    if c == '\t' then [] :: splitTab cs
    else
      match splitTab cs with
      | [] => [[c]]
      | f :: fs => (c :: f) :: fs

/-- Python sep.join for the tab separator: fields joined with a single tab,
no trailing delimiter. -/
def joinTab : List Chars → Chars
  | [] => []
  | [f] => f
  | f :: fs => f ++ '\t' :: joinTab fs

/-- Python values that can be supplied for the dynamically typed arguments of
the modelled code: integers and strings. -/
inductive PyVal where
  | vint (n : Int)
  | vstr (s : Chars)
deriving DecidableEq, Repr

/-- The Python exception kinds raised by the modelled code. -/
inductive PyErr where
  | valueError
  | typeError
  | indexError
  | keyError
deriving DecidableEq, Repr

/-- Numeric value of a list of decimal digits. -/
def decValue (l : List Char) : Nat := l.foldl (fun a c => a * 10 + (c.toNat - 48)) 0

/-- Python int() applied to a string: surrounding whitespace is ignored, one
optional sign is allowed, and the rest must be a nonempty run of decimal
digits; anything else raises ValueError (modelled as none). -/
def pyStrToInt (s : Chars) : Option Int :=
  let t := stripBoth isPySpace s
  let sd : Int × Chars :=
    match t with
    | '-' :: rest => (-1, rest)
    | '+' :: rest => (1, rest)
    | _ => (1, t)
  if sd.2 ≠ [] ∧ sd.2.all (fun c => c.isDigit) then some (sd.1 * (decValue sd.2)) else none

/-- Python int() on a tagged value: integers pass through unchanged, strings
are parsed (a parse failure is a ValueError). Other argument types, which the
modelled callers never pass, would raise TypeError. -/
def pyToInt : PyVal → Except PyErr Int
  | .vint n => .ok n
  | .vstr s =>
    match pyStrToInt s with
    | some n => .ok n
    | none => .error .valueError

/-- TabDataLine from TabFile.py: the field values, the column names, and the
validated line number. -/
structure TabDataLine where
  data : List Chars
  names : List Chars
  lineno : Option Int
deriving DecidableEq, Repr

/-- TabDataLine.__init__: split the stripped line on tabs, pad the values with
empty strings up to the number of column names, then validate the optional
line number with int(); a negative number raises ValueError, and a value that
int() cannot convert also surfaces as an uncaught ValueError (the except
clause in the source catches only TypeError, which likewise ends in a raised
ValueError). -/
def TabDataLine.make (line : Option Chars) (column_names : Option (List Chars))
    (lineno : Option PyVal) : Except PyErr TabDataLine :=
  let data0 : List Chars :=
    match line with
    | none => []
    | some l => splitTab (pyStrip l)
  let names : List Chars :=
    match column_names with
    | none => []
    | some cns => cns
  let data1 := data0 ++ List.replicate (names.length - data0.length) []
  match lineno with
  | none => .ok { data := data1, names := names, lineno := none }
  | some v =>
    match pyToInt v with
    | .ok n =>
      if n < 0 then .error .valueError
      else .ok { data := data1, names := names, lineno := some n }
    | .error _ => .error .valueError

/-- TabDataLine.__len__. -/
def TabDataLine.len (r : TabDataLine) : Nat := r.data.length

/-- TabDataLine.__repr__: the field values joined with tabs. -/
def TabDataLine.serialize (r : TabDataLine) : Chars := joinTab r.data

/-- Python list indexing with negative index support; none models IndexError. -/
def pyIdx {β : Type} (l : List β) (i : Int) : Option β :=
  if 0 ≤ i then l[i.toNat]?
  else if i.natAbs ≤ l.length then l[(l.length - i.natAbs)]? else none

/-- Python list item assignment with negative index support; none models IndexError. -/
def pySetIdx {β : Type} (l : List β) (i : Int) (v : β) : Option (List β) :=
  if 0 ≤ i then (if i.toNat < l.length then some (l.set i.toNat v) else none)
  else if i.natAbs ≤ l.length then some (l.set (l.length - i.natAbs) v) else none

/-- Python equality between a dynamically typed key and a string column name:
only a string key can equal a name. -/
def pvEqStr (key : PyVal) (s : Chars) : Bool :=
  match key with
  | .vstr t => t == s
  | .vint _ => false

/-- TabDataLine.__getitem__: the key is tried as a column name first (the
first matching name wins); on failure it is converted with int() and used as
a positional index, an unconvertible key or an out-of-range position being a
KeyError. A name hit with the value list out of range is an uncaught
IndexError. -/
def TabDataLine.getItem (r : TabDataLine) (key : PyVal) : Except PyErr Chars :=
  match r.names.findIdx? (fun nm => pvEqStr key nm) with
  | some i =>
    match r.data[i]? with
    | some v => .ok v
    | none => .error .indexError
  | none =>
    match pyToInt key with
    | .error _ => .error .keyError
    | .ok i =>
      match pyIdx r.data i with
      | some v => .ok v
      | none => .error .keyError

/-- TabDataLine.__setitem__: the same key resolution as __getitem__, mutating
the addressed field in place. -/
def TabDataLine.setItem (r : TabDataLine) (key : PyVal) (v : Chars) : Except PyErr TabDataLine :=
  match r.names.findIdx? (fun nm => pvEqStr key nm) with
  | some i =>
    if i < r.data.length then .ok { r with data := r.data.set i v } else .error .indexError
  | none =>
    match pyToInt key with
    | .error _ => .error .keyError
    | .ok i =>
      match pySetIdx r.data i v with
      | some d => .ok { r with data := d }
      | none => .error .keyError

/-- The key to column-name resolution performed by TabDataLine.subset: first
names[int(key)] (whose IndexError for an out-of-range position propagates
uncaught), falling back on a ValueError to a direct membership test of the
key among the names; a key that resolves to no name, or to a falsy (empty)
name, is a KeyError. -/
def TabDataLine.resolveKey (r : TabDataLine) (key : PyVal) : Except PyErr Chars :=
  match pyToInt key with
  | .ok i =>
    match pyIdx r.names i with
    | some nm => if nm = [] then .error .keyError else .ok nm
    | none => .error .indexError
  | .error _ =>
    match key with
    | .vstr s => if s ∈ r.names ∧ s ≠ [] then .ok s else .error .keyError
    | _ => .error .keyError

/-- TabDataLine.subset: resolve every key to a column name, create a fresh
TabDataLine carrying those names (hence padded with empty values) and no line
number, then copy each requested value into it by assigning through the
resolved name. -/
def TabDataLine.subset (r : TabDataLine) (keys : List PyVal) : Except PyErr TabDataLine := do
  let names ← keys.mapM (fun k => r.resolveKey k)
  let init ← TabDataLine.make none (some names) none
  keys.foldlM (fun sub key => do
    let nm ← r.resolveKey key
    let v ← r.getItem key
    sub.setItem (.vstr nm) v) init

/-- The warning message logged by TabFile.setHeader over an existing header. -/
def overridingHeadersMsg : String := "Overriding existing headers"

/-- TabFile from TabFile.py: the header (column names), the column count
derived from it, and the stored data lines. -/
structure TabFile where
  header : List Chars
  ncols : Nat
  data : List TabDataLine
deriving DecidableEq, Repr

/-- TabFile.setHeader: replace the header and the column count with the given
names, logging a warning first when a header was already set; the data lines
are untouched and the operation always completes. -/
def TabFile.setHeader (t : TabFile) (column_names : List Chars) : TabFile × List String :=
  let warns := if 0 < t.header.length then [overridingHeadersMsg] else []
  ({ header := column_names, ncols := column_names.length, data := t.data }, warns)

/-- The errors that abort TabFile.__load: the IndexError raised for a stored
line shorter than the header (paired in the source with a logging.error call
naming the 1-based line number, recorded here in the error), and any Python
exception escaping TabDataLine construction. -/
inductive LoadErr where
  | indexError (lineNo : Nat)
  | pyErr (e : PyErr)
deriving DecidableEq, Repr

/-- Python startswith for the one-character comment marker. -/
def startsWithHash : Chars → Bool
  | [] => false
  | c :: _ => c == '#'

/-- TabFile.__load: for each line, in order, honour skip_first_line once,
else consume the line as the header when first_line_is_header is set (strip
surrounding whitespace, strip the comment marker character from both ends,
split on tabs), else skip comment lines, and otherwise parse the line into a
TabDataLine carrying the current header and the 1-based line number and store
it; a stored line with fewer values than a set column count raises
IndexError. -/
def TabFile.loadLines (t : TabFile) (line_no : Nat)
    (skip_first_line first_line_is_header : Bool) : List Chars → Except LoadErr TabFile
  | [] => .ok t
  | line :: rest =>
    let n := line_no + 1
    if skip_first_line then t.loadLines n false first_line_is_header rest
    else if first_line_is_header then
      ((t.setHeader (splitTab (stripBoth (fun c => c == '#') (pyStrip line)))).1).loadLines
        n false false rest
    else if startsWithHash (stripLeft isPySpace line) then
      t.loadLines n skip_first_line first_line_is_header rest
    else
      match TabDataLine.make (some line) (some t.header) (some (.vint (n : Int))) with
      | .error e => .error (.pyErr e)
      | .ok dl =>
        if 0 < t.ncols ∧ dl.data.length < t.ncols then .error (.indexError n)
        else { t with data := t.data ++ [dl] }.loadLines n skip_first_line first_line_is_header rest

/-- TabFile.__init__: start empty, set the header from explicit column names
when given, then load all lines. -/
def TabFile.make (column_names : Option (List Chars))
    (skip_first_line first_line_is_header : Bool) (lines : List Chars) : Except LoadErr TabFile :=
  let t0 : TabFile := { header := [], ncols := 0, data := [] }
  let t1 :=
    match column_names with
    | none => t0
    | some cns => (t0.setHeader cns).1
  t1.loadLines 0 skip_first_line first_line_is_header lines

/-- ProbesetData from microarraytowig.py: a probeset id with its chromosome
and start and end coordinates. -/
structure ProbesetData (α : Type) where
  id : α
  chrom : Chars
  start : Chars
  end_ : Chars
deriving DecidableEq, Repr

/-- bisect.bisect_right from the Python library: the insertion point after
any stored keys equal to the probe, written as the linear recursion that the
documented binary search computes on the sorted key lists which
IndexedProbesets maintains (its only use here). -/
def bisect_right {α : Type} [LinearOrder α] (l : List α) (x : α) : Nat :=
  match l with
  | [] => 0
  | a :: as => if x < a then 0 else bisect_right as x + 1

/-- bisect.bisect_left from the Python library: the insertion point before
any stored keys equal to the probe, written as the linear recursion that the
documented binary search computes on the sorted key lists which
IndexedProbesets maintains (its only use here). -/
def bisect_left {α : Type} [LinearOrder α] (l : List α) (x : α) : Nat :=
  match l with
  | [] => 0
  | a :: as => if a < x then bisect_left as x + 1 else 0

/-- Python list.insert: insert before position i, appending when i is at or
beyond the end. -/
def listInsertAt {β : Type} : Nat → β → List β → List β
  | 0, x, l => x :: l
  | _ + 1, x, [] => [x]
  | n + 1, x, a :: l => a :: listInsertAt n x l

/-- IndexedProbesets from microarraytowig.py: parallel key and payload lists
kept in sorted key order. -/
structure IndexedProbesets (α : Type) where
  probeset_ids : List α
  probeset_data : List (ProbesetData α)
deriving DecidableEq, Repr

/-- IndexedProbesets.__init__: both lists start empty. -/
def IndexedProbesets.empty {α : Type} : IndexedProbesets α :=
  { probeset_ids := [], probeset_data := [] }

/-- IndexedProbesets.addProbesetData: find the bisect.bisect insertion point
for the id and insert the id and its ProbesetData there in the two parallel
lists. -/
def IndexedProbesets.addProbesetData {α : Type} [LinearOrder α] (s : IndexedProbesets α)
    (probe_id : α) (chrom start end_ : Chars) : IndexedProbesets α :=
  let i := bisect_right s.probeset_ids probe_id
  { probeset_ids := listInsertAt i probe_id s.probeset_ids,
    probeset_data :=
      listInsertAt i { id := probe_id, chrom := chrom, start := start, end_ := end_ }
        s.probeset_data }

/-- The outcome of IndexedProbesets.getProbesetData: the matching data, the
Python None for a missing id, or an uncaught IndexError. -/
inductive LookupResult (α : Type) where
  | found (d : ProbesetData α)
  | notFound
  | indexError
deriving DecidableEq, Repr

/-- IndexedProbesets.getProbesetData: compute the bisect_left position of the
id, then evaluate the guard, which reads the last stored id (an IndexError on
an empty list) before comparing; on a guard hit the id at the found position
is compared and the parallel data returned on a match, None otherwise. -/
def IndexedProbesets.getProbesetData {α : Type} [LinearOrder α] (s : IndexedProbesets α)
    (probe_id : α) : LookupResult α :=
  let i := bisect_left s.probeset_ids probe_id
  match s.probeset_ids.getLast? with
  | none => .indexError
  | some last =>
    if probe_id ≤ last then
      match s.probeset_ids[i]? with
      | none => .indexError
      | some ki =>
        if ki = probe_id then
          match s.probeset_data[i]? with
          | some d => .found d
          | none => .indexError
        else .notFound
    else .notFound

/-- IndexedProbesets.__len__. -/
def IndexedProbesets.size {α : Type} (s : IndexedProbesets α) : Nat := s.probeset_ids.length

/-- One probeset row as fed to addProbesetData by the main program loop. -/
structure ProbesetEntry (α : Type) where
  pid : α
  chrom : Chars
  start : Chars
  end_ : Chars
deriving DecidableEq, Repr

/-- The ProbesetData that addProbesetData stores for a row. -/
def ProbesetEntry.toData {α : Type} (e : ProbesetEntry α) : ProbesetData α :=
  { id := e.pid, chrom := e.chrom, start := e.start, end_ := e.end_ }

/-- Feeding a list of probeset rows into an existing IndexedProbesets, one
addProbesetData call per row, as the main program loop does. -/
def buildFrom {α : Type} [LinearOrder α] (s : IndexedProbesets α)
    (es : List (ProbesetEntry α)) : IndexedProbesets α :=
  es.foldl (fun t e => t.addProbesetData e.pid e.chrom e.start e.end_) s

/-- An IndexedProbesets built from scratch out of a list of probeset rows. -/
def buildIndex {α : Type} [LinearOrder α] (es : List (ProbesetEntry α)) : IndexedProbesets α :=
  buildFrom IndexedProbesets.empty es

/-- Concrete index state: one entry stored under key a. -/
def c2First : IndexedProbesets Chars :=
  IndexedProbesets.empty.addProbesetData (("a").toList) (("chr1").toList) (("100").toList)
    (("200").toList)

/-- Concrete index state: a second entry inserted under the same key a. -/
def c2Second : IndexedProbesets Chars :=
  c2First.addProbesetData (("a").toList) (("chr2").toList) (("300").toList) (("400").toList)

/-- The payload of the second insertion under key a. -/
def c2NewData : ProbesetData Chars :=
  { id := ("a").toList, chrom := ("chr2").toList, start := ("300").toList,
    end_ := ("400").toList }

/-- The payload that the amended Claim C2 witness inserts under key c. -/
def c2WitNewData : ProbesetData Chars :=
  { id := ("c").toList, chrom := ("chr2").toList, start := ("30").toList,
    end_ := ("40").toList }

/-- A concrete sorted two-entry index state. -/
def c2WitState : IndexedProbesets Chars :=
  { probeset_ids := [("a").toList, ("c").toList],
    probeset_data :=
      [{ id := ("a").toList, chrom := ("chr1").toList, start := ("10").toList,
         end_ := ("20").toList },
       { id := ("c").toList, chrom := ("chr1").toList, start := ("50").toList,
         end_ := ("60").toList }] }

/-- Three concrete probeset rows with distinct keys in unsorted order. -/
def c3Entries : List (ProbesetEntry Chars) :=
  [{ pid := ("b").toList, chrom := ("chr1").toList, start := ("1").toList,
     end_ := ("2").toList },
   { pid := ("a").toList, chrom := ("chr2").toList, start := ("3").toList,
     end_ := ("4").toList },
   { pid := ("c").toList, chrom := ("chr3").toList, start := ("5").toList,
     end_ := ("6").toList }]

/-- Three concrete tab-free field values. -/
def c10Values : List Chars := [("chr1").toList, ("1").toList, ("234").toList]

/-! ## Helper lemmas -/

theorem mem_listInsertAt {β : Type} (i : Nat) (x : β) (l : List β) (y : β) :
    y ∈ listInsertAt i x l ↔ y = x ∨ y ∈ l := by
  induction i generalizing l with
  | zero => simp [listInsertAt]
  | succ n ih =>
    cases l with
    | nil => simp [listInsertAt]
    | cons a as => simp [listInsertAt, ih]; tauto

theorem listInsertAt_perm {β : Type} (i : Nat) (x : β) (l : List β) :
    (listInsertAt i x l).Perm (x :: l) := by
  induction i generalizing l with
  | zero => exact List.Perm.refl _
  | succ n ih =>
    cases l with
    | nil => exact List.Perm.refl _
    | cons a as =>
      exact ((ih as).cons a).trans (List.Perm.swap x a as)

theorem map_listInsertAt {β γ : Type} (f : β → γ) (i : Nat) (x : β) (l : List β) :
    (listInsertAt i x l).map f = listInsertAt i (f x) (l.map f) := by
  induction i generalizing l with
  | zero => simp [listInsertAt]
  | succ n ih =>
    cases l with
    | nil => simp [listInsertAt]
    | cons a as => simp [listInsertAt, ih]

theorem take_bisect_right_le {α : Type} [LinearOrder α] (l : List α) (k : α) :
    ∀ x ∈ l.take (bisect_right l k), x ≤ k := by
  induction l with
  | nil => simp
  | cons a as ih =>
    by_cases h : k < a
    · simp [bisect_right, h]
    · simp only [bisect_right, if_neg h, List.take_succ_cons, List.mem_cons]
      rintro x (rfl | hx)
      · exact le_of_not_lt h
      · exact ih x hx

theorem drop_bisect_right_lt {α : Type} [LinearOrder α] (l : List α) (k : α)
    (hs : l.Sorted (· ≤ ·)) : ∀ x ∈ l.drop (bisect_right l k), k < x := by
  induction l with
  | nil => simp
  | cons a as ih =>
    rw [List.sorted_cons] at hs
    by_cases h : k < a
    · simp only [bisect_right, if_pos h, List.drop_zero, List.mem_cons]
      rintro x (rfl | hx)
      · exact h
      · exact lt_of_lt_of_le h (hs.1 x hx)
    · simp only [bisect_right, if_neg h, List.drop_succ_cons]
      exact ih hs.2

theorem sorted_listInsertAt_bisect_right {α : Type} [LinearOrder α] (l : List α) (k : α)
    (hs : l.Sorted (· ≤ ·)) : (listInsertAt (bisect_right l k) k l).Sorted (· ≤ ·) := by
  induction l with
  | nil => simp [bisect_right, listInsertAt]
  | cons a as ih =>
    rw [List.sorted_cons] at hs
    by_cases h : k < a
    · simp only [bisect_right, if_pos h, listInsertAt]
      rw [List.sorted_cons]
      refine ⟨?_, List.sorted_cons.mpr hs⟩
      intro b hb
      rcases List.mem_cons.mp hb with rfl | hb
      · exact le_of_lt h
      · exact le_of_lt (lt_of_lt_of_le h (hs.1 b hb))
    · simp only [bisect_right, if_neg h, listInsertAt]
      rw [List.sorted_cons]
      refine ⟨?_, ih hs.2⟩
      intro b hb
      rcases (mem_listInsertAt _ _ _ _).mp hb with rfl | hb
      · exact le_of_not_lt h
      · exact hs.1 b hb

theorem addProbesetData_ids_perm {α : Type} [LinearOrder α] (s : IndexedProbesets α)
    (k : α) (c st en : Chars) :
    (s.addProbesetData k c st en).probeset_ids.Perm (k :: s.probeset_ids) :=
  listInsertAt_perm _ _ _

theorem addProbesetData_data_perm {α : Type} [LinearOrder α] (s : IndexedProbesets α)
    (k : α) (c st en : Chars) :
    (s.addProbesetData k c st en).probeset_data.Perm
      ({ id := k, chrom := c, start := st, end_ := en } :: s.probeset_data) :=
  listInsertAt_perm _ _ _

theorem addProbesetData_sorted {α : Type} [LinearOrder α] (s : IndexedProbesets α)
    (k : α) (c st en : Chars) (hs : s.probeset_ids.Sorted (· ≤ ·)) :
    (s.addProbesetData k c st en).probeset_ids.Sorted (· ≤ ·) :=
  sorted_listInsertAt_bisect_right _ _ hs

theorem addProbesetData_map_id {α : Type} [LinearOrder α] (s : IndexedProbesets α)
    (k : α) (c st en : Chars) (h : s.probeset_ids = s.probeset_data.map ProbesetData.id) :
    (s.addProbesetData k c st en).probeset_ids =
      (s.addProbesetData k c st en).probeset_data.map ProbesetData.id := by
  simp only [IndexedProbesets.addProbesetData, map_listInsertAt]
  rw [h]

theorem buildFrom_sorted {α : Type} [LinearOrder α] (es : List (ProbesetEntry α)) :
    ∀ s : IndexedProbesets α, s.probeset_ids.Sorted (· ≤ ·) →
      (buildFrom s es).probeset_ids.Sorted (· ≤ ·) := by
  induction es with
  | nil => intro s hs; exact hs
  | cons e es ih =>
    intro s hs
    exact ih _ (addProbesetData_sorted s e.pid e.chrom e.start e.end_ hs)

theorem buildFrom_map_id {α : Type} [LinearOrder α] (es : List (ProbesetEntry α)) :
    ∀ s : IndexedProbesets α, s.probeset_ids = s.probeset_data.map ProbesetData.id →
      (buildFrom s es).probeset_ids = (buildFrom s es).probeset_data.map ProbesetData.id := by
  induction es with
  | nil => intro s hs; exact hs
  | cons e es ih =>
    intro s hs
    exact ih _ (addProbesetData_map_id s e.pid e.chrom e.start e.end_ hs)

theorem buildFrom_ids_perm {α : Type} [LinearOrder α] (es : List (ProbesetEntry α)) :
    ∀ s : IndexedProbesets α,
      (buildFrom s es).probeset_ids.Perm (es.map ProbesetEntry.pid ++ s.probeset_ids) := by
  induction es with
  | nil => intro s; exact List.Perm.refl _
  | cons e es ih =>
    intro s
    refine ((ih _).trans ?_)
    refine (List.Perm.append_left (es.map ProbesetEntry.pid)
      (addProbesetData_ids_perm s e.pid e.chrom e.start e.end_)).trans ?_
    exact List.perm_middle

theorem buildFrom_data_perm {α : Type} [LinearOrder α] (es : List (ProbesetEntry α)) :
    ∀ s : IndexedProbesets α,
      (buildFrom s es).probeset_data.Perm (es.map ProbesetEntry.toData ++ s.probeset_data) := by
  induction es with
  | nil => intro s; exact List.Perm.refl _
  | cons e es ih =>
    intro s
    refine ((ih _).trans ?_)
    refine (List.Perm.append_left (es.map ProbesetEntry.toData)
      (addProbesetData_data_perm s e.pid e.chrom e.start e.end_)).trans ?_
    exact List.perm_middle

theorem getElem_bisect_left_of_mem {α : Type} [LinearOrder α] (l : List α) (k : α)
    (hs : l.Sorted (· ≤ ·)) (hk : k ∈ l) : l[bisect_left l k]? = some k := by
  induction l with
  | nil => cases hk
  | cons a as ih =>
    rw [List.sorted_cons] at hs
    by_cases h : a < k
    · have hk2 : k ∈ as := by
        rcases List.mem_cons.mp hk with rfl | hk2
        · exact absurd h (lt_irrefl k)
        · exact hk2
      simp only [bisect_left, if_pos h, List.getElem?_cons_succ]
      exact ih hs.2 hk2
    · have hak : k = a := by
        rcases List.mem_cons.mp hk with rfl | hk2
        · rfl
        · exact le_antisymm (le_of_not_lt h) (hs.1 k hk2)
      simp [bisect_left, if_neg h, hak]

theorem getLast?_mem {α : Type} : ∀ (l : List α) (b : α), l.getLast? = some b → b ∈ l := by
  intro l
  induction l with
  | nil => intro b hb; cases hb
  | cons a as ih =>
    intro b hb
    cases as with
    | nil =>
      simp only [List.getLast?_singleton, Option.some.injEq] at hb
      subst hb
      exact List.mem_cons_self a []
    | cons c cs =>
      rw [List.getLast?_cons_cons] at hb
      exact List.mem_cons_of_mem a (ih b hb)

theorem le_getLast_of_sorted_mem {α : Type} [LinearOrder α] :
    ∀ l : List α, l.Sorted (· ≤ ·) → ∀ k, k ∈ l → ∃ b, l.getLast? = some b ∧ k ≤ b := by
  intro l
  induction l with
  | nil => intro _ k hk; cases hk
  | cons a as ih =>
    intro hs k hk
    rw [List.sorted_cons] at hs
    cases as with
    | nil =>
      rcases List.mem_cons.mp hk with rfl | hk2
      · exact ⟨k, by simp, le_refl k⟩
      · cases hk2
    | cons c cs =>
      rcases ih hs.2 c (List.mem_cons_self c cs) with ⟨b, hb, _⟩
      have hbmem : b ∈ c :: cs := getLast?_mem _ b hb
      have hlast : (a :: c :: cs).getLast? = some b := by
        rw [List.getLast?_cons_cons]; exact hb
      rcases List.mem_cons.mp hk with rfl | hk2
      · exact ⟨b, hlast, hs.1 b hbmem⟩
      · rcases ih hs.2 k hk2 with ⟨b2, hb2, hkb2⟩
        rw [hb] at hb2
        injection hb2 with hbb
        subst hbb
        exact ⟨b, hlast, hkb2⟩

theorem bisect_left_lt_length {α : Type} [LinearOrder α] (l : List α) (k : α) (b : α)
    (hs : l.Sorted (· ≤ ·)) (hb : l.getLast? = some b) (hkb : k ≤ b) :
    bisect_left l k < l.length := by
  induction l with
  | nil => cases hb
  | cons a as ih =>
    rw [List.sorted_cons] at hs
    by_cases h : a < k
    · cases as with
      | nil =>
        simp only [List.getLast?_singleton, Option.some.injEq] at hb
        subst hb
        exact absurd (lt_of_lt_of_le h hkb) (lt_irrefl a)
      | cons c cs =>
        rw [List.getLast?_cons_cons] at hb
        simp only [bisect_left, if_pos h, List.length_cons]
        exact Nat.succ_lt_succ (ih hs.2 hb)
    · simp [bisect_left, if_neg h]

theorem getProbesetData_of_mem {α : Type} [LinearOrder α] (s : IndexedProbesets α)
    (hs : s.probeset_ids.Sorted (· ≤ ·))
    (hmap : s.probeset_ids = s.probeset_data.map ProbesetData.id)
    (k : α) (hk : k ∈ s.probeset_ids) :
    ∃ d, s.getProbesetData k = .found d ∧ d.id = k ∧ d ∈ s.probeset_data := by
  rcases le_getLast_of_sorted_mem _ hs _ hk with ⟨b, hb, hkb⟩
  have hget : s.probeset_ids[bisect_left s.probeset_ids k]? = some k :=
    getElem_bisect_left_of_mem _ _ hs hk
  have hlt : bisect_left s.probeset_ids k < s.probeset_ids.length :=
    bisect_left_lt_length _ _ b hs hb hkb
  have hlen : s.probeset_ids.length = s.probeset_data.length := by
    rw [hmap, List.length_map]
  have hdata : ∃ d, s.probeset_data[bisect_left s.probeset_ids k]? = some d := by
    have : bisect_left s.probeset_ids k < s.probeset_data.length := by omega
    exact ⟨_, List.getElem?_eq_getElem this⟩
  rcases hdata with ⟨d, hd⟩
  have hdid : d.id = k := by
    have : (s.probeset_data.map ProbesetData.id)[bisect_left s.probeset_ids k]? =
        some k := by rw [← hmap]; exact hget
    rw [List.getElem?_map, hd] at this
    simpa using this
  refine ⟨d, ?_, hdid, List.getElem?_mem hd⟩
  unfold IndexedProbesets.getProbesetData
  rw [hb]
  simp [if_pos hkb, hget, hd]

theorem getProbesetData_of_not_mem {α : Type} [LinearOrder α] (s : IndexedProbesets α)
    (hs : s.probeset_ids.Sorted (· ≤ ·)) (hne : s.probeset_ids ≠ [])
    (k : α) (hk : k ∉ s.probeset_ids) : s.getProbesetData k = .notFound := by
  rcases List.exists_mem_of_ne_nil _ hne with ⟨a, ha⟩
  have hlast : ∃ b, s.probeset_ids.getLast? = some b := by
    cases hl : s.probeset_ids.getLast? with
    | none => exact absurd (List.getLast?_eq_none_iff.mp hl) hne
    | some b => exact ⟨b, rfl⟩
  rcases hlast with ⟨b, hb⟩
  unfold IndexedProbesets.getProbesetData
  rw [hb]
  by_cases hkb : k ≤ b
  · have hlt : bisect_left s.probeset_ids k < s.probeset_ids.length :=
      bisect_left_lt_length _ _ b hs hb hkb
    have hget : ∃ ki, s.probeset_ids[bisect_left s.probeset_ids k]? = some ki :=
      ⟨_, List.getElem?_eq_getElem hlt⟩
    rcases hget with ⟨ki, hki⟩
    have hne2 : ki ≠ k := by
      intro h
      exact hk (h ▸ List.getElem?_mem hki)
    simp only [if_pos hkb, hki, if_neg hne2]
  · simp only [if_neg hkb]

theorem splitTab_ne_nil (l : Chars) : splitTab l ≠ [] := by
  induction l with
  | nil => simp [splitTab]
  | cons c cs ih =>
    by_cases h : c == '\t'
    · simp [splitTab, h]
    · simp only [splitTab, h, Bool.false_eq_true, if_false]
      cases hsp : splitTab cs with
      | nil => simp
      | cons f fs => simp

theorem splitTab_no_tab (v : Chars) (hv : ('\t') ∉ v) : splitTab v = [v] := by
  induction v with
  | nil => rfl
  | cons c cs ih =>
    simp only [List.mem_cons, not_or] at hv
    have hbeq : (c == '\t') = false := by
      simp only [beq_eq_false_iff_ne, ne_eq]
      exact fun h => hv.1 h.symm
    have hcs : ('\t') ∉ cs := hv.2
    simp [splitTab, hbeq, ih hcs]

theorem splitTab_append (v : Chars) (hv : ('\t') ∉ v) (r : Chars) :
    splitTab (v ++ '\t' :: r) = v :: splitTab r := by
  induction v with
  | nil => simp [splitTab]
  | cons c cs ih =>
    simp only [List.mem_cons, not_or] at hv
    have hbeq : (c == '\t') = false := by
      simp only [beq_eq_false_iff_ne, ne_eq]
      exact fun h => hv.1 h.symm
    have hcs : ('\t') ∉ cs := hv.2
    rw [List.cons_append]
    simp [splitTab, hbeq, ih hcs]

theorem splitTab_joinTab (vs : List Chars) (h0 : vs ≠ []) (h1 : ∀ v ∈ vs, ('\t') ∉ v) :
    splitTab (joinTab vs) = vs := by
  induction vs with
  | nil => exact absurd rfl h0
  | cons v vs ih =>
    cases vs with
    | nil =>
      exact splitTab_no_tab v (h1 v (List.mem_cons_self v []))
    | cons w ws =>
      have hjoin : joinTab (v :: w :: ws) = v ++ '\t' :: joinTab (w :: ws) := rfl
      rw [hjoin, splitTab_append v (h1 v (List.mem_cons_self v _)),
        ih (by simp) (fun x hx => h1 x (List.mem_cons_of_mem v hx))]

theorem make_line_ok (line : Chars) (cns : List Chars) (n : Nat) :
    TabDataLine.make (some line) (some cns) (some (.vint (n : Int))) =
      .ok { data := splitTab (pyStrip line) ++
              List.replicate (cns.length - (splitTab (pyStrip line)).length) ([] : Chars),
            names := cns, lineno := some (n : Int) } := by
  have hn : ¬ ((n : Int) < 0) := not_lt.mpr (Int.natCast_nonneg n)
  simp [TabDataLine.make, pyToInt, hn]

theorem loadLines_header_stable :
    ∀ (lines : List Chars) (t : TabFile) (n : Nat) (skip : Bool),
      t.ncols = t.header.length →
      ∃ t2, t.loadLines n skip false lines = .ok t2 ∧ t2.header = t.header ∧
        t2.ncols = t.ncols := by
  intro lines
  induction lines with
  | nil => intro t n skip hnc; exact ⟨t, rfl, rfl, rfl⟩
  | cons line rest ih =>
    intro t n skip hnc
    by_cases hskip : skip = true
    · rcases ih t (n + 1) false hnc with ⟨t2, h1, h2, h3⟩
      refine ⟨t2, ?_, h2, h3⟩
      simp only [TabFile.loadLines, hskip, if_true]
      exact h1
    · by_cases hcomment : startsWithHash (stripLeft isPySpace line) = true
      · rcases ih t (n + 1) false hnc with ⟨t2, h1, h2, h3⟩
        refine ⟨t2, ?_, h2, h3⟩
        simp only [TabFile.loadLines, hskip, if_false, Bool.false_eq_true, hcomment, if_true]
        exact h1
      · have hmk := make_line_ok line t.header (n + 1)
        have hlen : t.ncols ≤ (splitTab (pyStrip line) ++
            List.replicate (t.header.length - (splitTab (pyStrip line)).length)
              ([] : Chars)).length := by
          rw [hnc]
          simp only [List.length_append, List.length_replicate]
          omega
        rcases ih { t with data := t.data ++
            [{ data := splitTab (pyStrip line) ++
                 List.replicate (t.header.length - (splitTab (pyStrip line)).length)
                   ([] : Chars),
               names := t.header, lineno := some ((n + 1 : Nat) : Int) }] }
          (n + 1) false hnc with ⟨t2, h1, h2, h3⟩
        refine ⟨t2, ?_, h2, h3⟩
        simp only [TabFile.loadLines, hskip, Bool.false_eq_true, if_false, hcomment, hmk]
        rw [if_neg (by push_neg; intro _; omega)]
        exact h1

/-! ## Claim theorems -/

/-- Claim C1 (code bug evidence): loading the single line with two fields into a
table whose header has three columns does not abort with an error naming the
1-based line number; TabDataLine construction pads the parsed record with an
empty field up to the header length, so the short-line check in TabFile.__load
never fires and the padded record is stored. This contradicts the docstring of
TabFile.__load, which promises an IndexError for lines with fewer data items
than the header. -/
theorem c1_short_line_padded_not_rejected :
    TabFile.make (some [("a").toList, ("b").toList, ("c").toList]) false false
      [("1\t2").toList] =
    .ok { header := [("a").toList, ("b").toList, ("c").toList], ncols := 3,
          data := [{ data := [("1").toList, ("2").toList, []],
                     names := [("a").toList, ("b").toList, ("c").toList],
                     lineno := some 1 }] } := rfl

/-- Claim C2 counterexample: after one entry is stored under a key, inserting a
second entry with the same key does not go to the leftmost admissible position
(before the equal entry, the bisect_left point); bisect.bisect inserts after
it, so the payload list keeps the first-inserted payload first. -/
theorem c2_counterexample :
    c2Second.probeset_data =
      [{ id := ("a").toList, chrom := ("chr1").toList, start := ("100").toList,
         end_ := ("200").toList }, c2NewData] ∧
    c2Second.probeset_data ≠
      listInsertAt (bisect_left c2First.probeset_ids (("a").toList)) c2NewData
        c2First.probeset_data := by
  exact ⟨rfl, by decide⟩

/-- Claim C2 (amended): on a sorted key list, addProbesetData inserts the key
and its payload in both parallel lists at the rightmost admissible position:
every key before the insertion point is at most the new key and every key
after it is strictly greater, so an entry with an equal key ends up after all
entries already stored under that key. -/
theorem c2_insert_rightmost {α : Type} [LinearOrder α] (s : IndexedProbesets α)
    (k : α) (c st en : Chars) (hs : s.probeset_ids.Sorted (· ≤ ·)) :
    ∃ i, (s.addProbesetData k c st en).probeset_ids = listInsertAt i k s.probeset_ids ∧
      (s.addProbesetData k c st en).probeset_data =
        listInsertAt i { id := k, chrom := c, start := st, end_ := en } s.probeset_data ∧
      (∀ x ∈ s.probeset_ids.take i, x ≤ k) ∧
      (∀ x ∈ s.probeset_ids.drop i, k < x) :=
  ⟨bisect_right s.probeset_ids k, rfl, rfl, take_bisect_right_le _ _,
    drop_bisect_right_lt _ _ hs⟩

/-- Witness for the amended Claim C2 at a concrete sorted two-entry index. -/
theorem c2_insert_rightmost_witness :
    (c2WitState.probeset_ids.Sorted (· ≤ ·)) ∧
    (∃ i, (c2WitState.addProbesetData (("c").toList) (("chr2").toList) (("30").toList)
        (("40").toList)).probeset_ids = listInsertAt i (("c").toList) c2WitState.probeset_ids ∧
      (c2WitState.addProbesetData (("c").toList) (("chr2").toList) (("30").toList)
        (("40").toList)).probeset_data =
        listInsertAt i c2WitNewData c2WitState.probeset_data ∧
      (∀ x ∈ c2WitState.probeset_ids.take i, x ≤ (("c").toList : Chars)) ∧
      (∀ x ∈ c2WitState.probeset_ids.drop i, (("c").toList : Chars) < x)) :=
  ⟨by decide, c2_insert_rightmost c2WitState (("c").toList) (("chr2").toList) (("30").toList)
    (("40").toList) (by decide)⟩

/-- Claim C3: in an index built by at least one addProbesetData call with
pairwise-distinct keys, getProbesetData returns the stored ProbesetData for
every inserted key and the not-found result (Python None) for every absent
key, which covers keys below the minimum, above the maximum, and in gaps. -/
theorem c3_lookup_after_build {α : Type} [LinearOrder α] (es : List (ProbesetEntry α))
    (hne : es ≠ []) (hnd : (es.map ProbesetEntry.pid).Nodup) :
    (∀ e ∈ es, (buildIndex es).getProbesetData e.pid = .found e.toData) ∧
    (∀ k, k ∉ es.map ProbesetEntry.pid →
      (buildIndex es).getProbesetData k = .notFound) := by
  have hsorted : (buildIndex es).probeset_ids.Sorted (· ≤ ·) :=
    buildFrom_sorted es _ List.sorted_nil
  have hmap : (buildIndex es).probeset_ids =
      (buildIndex es).probeset_data.map ProbesetData.id :=
    buildFrom_map_id es _ rfl
  have hidsperm : (buildIndex es).probeset_ids.Perm (es.map ProbesetEntry.pid) := by
    have h := buildFrom_ids_perm es IndexedProbesets.empty
    simpa [IndexedProbesets.empty, buildIndex] using h
  have hdataperm : (buildIndex es).probeset_data.Perm (es.map ProbesetEntry.toData) := by
    have h := buildFrom_data_perm es IndexedProbesets.empty
    simpa [IndexedProbesets.empty, buildIndex] using h
  constructor
  · intro e he
    have hkmem : e.pid ∈ (buildIndex es).probeset_ids :=
      hidsperm.mem_iff.mpr (List.mem_map_of_mem _ he)
    rcases getProbesetData_of_mem _ hsorted hmap e.pid hkmem with ⟨d, hfound, hid, hdmem⟩
    have hdmem2 : d ∈ es.map ProbesetEntry.toData := hdataperm.mem_iff.mp hdmem
    rcases List.mem_map.mp hdmem2 with ⟨e2, he2, he2d⟩
    have hpid : e2.pid = e.pid := by
      rw [← he2d] at hid
      exact hid
    have hee : e2 = e := List.inj_on_of_nodup_map hnd he2 he hpid
    rw [hfound, ← he2d, hee]
  · intro k hk
    have hknotmem : k ∉ (buildIndex es).probeset_ids := fun h =>
      hk (hidsperm.mem_iff.mp h)
    have hne2 : (buildIndex es).probeset_ids ≠ [] := by
      intro h
      have hlen := hidsperm.length_eq
      rw [h] at hlen
      simp only [List.length_nil, List.length_map] at hlen
      exact hne (List.length_eq_zero.mp hlen.symm)
    exact getProbesetData_of_not_mem _ hsorted hne2 k hknotmem

/-- Witness for Claim C3: the three-entry index built from keys b, a, c. -/
theorem c3_lookup_after_build_witness :
    (c3Entries ≠ []) ∧ ((c3Entries.map ProbesetEntry.pid).Nodup) ∧
    ((∀ e ∈ c3Entries, (buildIndex c3Entries).getProbesetData e.pid = .found e.toData) ∧
     (∀ k, k ∉ c3Entries.map ProbesetEntry.pid →
       (buildIndex c3Entries).getProbesetData k = .notFound)) :=
  ⟨by decide, by decide, c3_lookup_after_build c3Entries (by decide) (by decide)⟩

/-- Claim C4: on the empty IndexedProbesets every getProbesetData call reads
the last element of the empty key list, so it fails with IndexError rather
than returning the distinguished not-found result. -/
theorem c4_empty_lookup_index_error {α : Type} [LinearOrder α] (k : α) :
    (IndexedProbesets.empty : IndexedProbesets α).getProbesetData k = .indexError ∧
    (LookupResult.indexError : LookupResult α) ≠ .notFound :=
  ⟨rfl, fun h => LookupResult.noConfusion h⟩

/-- Claim C5 (code bug evidence): subset with the repeated key 2 on the record
1.1, 2.2, 3.3, 4.4 named one..four returns a record of length three carrying
the names three, two, three and no line number, but the value at the repeated
third position is the empty string instead of the value 3.3 that get(2)
returns: the copy-in assigns through the column name, which always hits the
first occurrence, so repeated positions past the first are never written. -/
theorem c5_subset_repeated_key_loses_value :
    (TabDataLine.make (some (("1.1\t2.2\t3.3\t4.4").toList))
        (some [("one").toList, ("two").toList, ("three").toList, ("four").toList]) none).bind
      (fun r => r.subset [.vint 2, .vint 1, .vint 2]) =
    .ok { data := [("3.3").toList, ("2.2").toList, []],
          names := [("three").toList, ("two").toList, ("three").toList],
          lineno := none } ∧
    (TabDataLine.make (some (("1.1\t2.2\t3.3\t4.4").toList))
        (some [("one").toList, ("two").toList, ("three").toList, ("four").toList]) none).bind
      (fun r => r.getItem (.vint 2)) = .ok (("3.3").toList) := by
  exact ⟨rfl, rfl⟩

/-- Claim C6 counterexample: consuming the line with two leading comment
markers and one trailing comment marker as the header strips all of them (the
source strips the marker from both ends), so the resulting column names differ
from those the claim predicts, where only a single leading marker is removed
and the trailing one is kept. -/
theorem c6_counterexample :
    TabFile.make none false true [("##a\tb#").toList] =
      .ok { header := [("a").toList, ("b").toList], ncols := 2, data := [] } ∧
    ([("a").toList, ("b").toList] : List Chars) ≠ [("#a").toList, ("b#").toList] := by
  exact ⟨rfl, by decide⟩

/-- Claim C6 (amended): when a load consumes a line as the header, that line
is stripped of surrounding whitespace and then of every leading and trailing
comment marker character (interior markers are untouched) before being split
on tabs to form the column names. -/
theorem c6_header_strips_all_edge_hashes (t : TabFile) (n : Nat) (line : Chars)
    (rest : List Chars) :
    ∃ t2, t.loadLines n false true (line :: rest) = .ok t2 ∧
      t2.header = splitTab (stripBoth (fun c => c == '#') (pyStrip line)) := by
  have hstep : t.loadLines n false true (line :: rest) =
      ((t.setHeader (splitTab (stripBoth (fun c => c == '#') (pyStrip line)))).1).loadLines
        (n + 1) false false rest := by
    simp [TabFile.loadLines]
  rcases loadLines_header_stable rest
      ((t.setHeader (splitTab (stripBoth (fun c => c == '#') (pyStrip line)))).1)
      (n + 1) false rfl with ⟨t2, h1, h2, _⟩
  exact ⟨t2, by rw [hstep]; exact h1, h2⟩

/-- Claim C7: setHeader on a table whose header is already non-empty first
emits the overriding-headers warning, then replaces the header and the derived
column count with the given names; the stored data is untouched and the
operation always completes (setHeader is total, with no error outcome). -/
theorem c7_setHeader_overrides_with_warning (t : TabFile) (names : List Chars)
    (h : 0 < t.header.length) :
    (t.setHeader names).2 = [overridingHeadersMsg] ∧
    (t.setHeader names).1.header = names ∧
    (t.setHeader names).1.ncols = names.length ∧
    (t.setHeader names).1.data = t.data := by
  refine ⟨?_, rfl, rfl, rfl⟩
  simp [TabFile.setHeader, h]

/-- Witness for Claim C7 on a concrete one-column table. -/
theorem c7_setHeader_overrides_with_warning_witness :
    (0 < ({ header := [("x").toList], ncols := 1, data := [] } : TabFile).header.length) ∧
    ((({ header := [("x").toList], ncols := 1, data := [] } : TabFile).setHeader
        [("y").toList, ("z").toList]).2 = [overridingHeadersMsg] ∧
     (({ header := [("x").toList], ncols := 1, data := [] } : TabFile).setHeader
        [("y").toList, ("z").toList]).1.header = [("y").toList, ("z").toList] ∧
     (({ header := [("x").toList], ncols := 1, data := [] } : TabFile).setHeader
        [("y").toList, ("z").toList]).1.ncols = ([("y").toList, ("z").toList] : List Chars).length ∧
     (({ header := [("x").toList], ncols := 1, data := [] } : TabFile).setHeader
        [("y").toList, ("z").toList]).1.data =
       ({ header := [("x").toList], ncols := 1, data := [] } : TabFile).data) :=
  ⟨by decide, c7_setHeader_overrides_with_warning _ _ (by decide)⟩

/-- Claim C8: an index built by any sequence of insertions keeps its key list
sorted non-decreasing, retains duplicate keys (the key list is a permutation
of the multiset of inserted keys), and reports a size equal to the number of
insertions performed; since every list of rows is covered, the invariant holds
after every insertion of any insertion sequence. -/
theorem c8_build_sorted_dup_size {α : Type} [LinearOrder α] (es : List (ProbesetEntry α)) :
    ((buildIndex es).probeset_ids.Sorted (· ≤ ·)) ∧
    ((buildIndex es).probeset_ids.Perm (es.map ProbesetEntry.pid)) ∧
    ((buildIndex es).size = es.length) := by
  have hsorted : (buildIndex es).probeset_ids.Sorted (· ≤ ·) :=
    buildFrom_sorted es _ List.sorted_nil
  have hperm : (buildIndex es).probeset_ids.Perm (es.map ProbesetEntry.pid) := by
    have h := buildFrom_ids_perm es IndexedProbesets.empty
    simpa [IndexedProbesets.empty, buildIndex] using h
  refine ⟨hsorted, hperm, ?_⟩
  have hlen := hperm.length_eq
  simp only [List.length_map] at hlen
  exact hlen

/-- Claim C9: TabDataLine construction with a supplied line number succeeds
exactly when int() converts the value to a non-negative integer; every failure
surfaces as ValueError (the ValidationError of the spec), and construction
with a non-negative integer stores exactly that number as the line number. -/
theorem c9_lineno_validation (v : PyVal) (n : Int) (hn : 0 ≤ n) :
    ((∃ r, TabDataLine.make none none (some v) = .ok r) ↔
      (∃ m : Int, 0 ≤ m ∧ pyToInt v = .ok m)) ∧
    (∀ e, TabDataLine.make none none (some v) = .error e → e = .valueError) ∧
    TabDataLine.make none none (some (.vint n)) =
      .ok { data := [], names := [], lineno := some n } := by
  have hmk : TabDataLine.make none none (some v) =
      (match pyToInt v with
       | .ok m =>
         if m < 0 then .error .valueError
         else .ok { data := [], names := [], lineno := some m }
       | .error _ => .error .valueError) := rfl
  have h3 : TabDataLine.make none none (some (.vint n)) =
      .ok { data := [], names := [], lineno := some n } := by
    simp [TabDataLine.make, pyToInt, not_lt.mpr hn]
  refine ⟨?_, ?_, h3⟩
  · rw [hmk]
    constructor
    · rintro ⟨r, hr⟩
      split at hr
      next m heq =>
        split at hr
        next hm => exact Except.noConfusion hr
        next hm => exact ⟨m, not_lt.mp hm, heq⟩
      next e heq => exact Except.noConfusion hr
    · rintro ⟨m, hm, hpt⟩
      refine ⟨{ data := [], names := [], lineno := some m }, ?_⟩
      rw [hpt]
      simp [not_lt.mpr hm]
  · rw [hmk]
    intro e he
    split at he
    next m heq =>
      split at he
      next hm =>
        injection he with h
        exact h.symm
      next hm => exact Except.noConfusion he
    next e2 heq =>
      injection he with h
      exact h.symm

/-- Witness for Claim C9 with the unconvertible string three and the number 3. -/
theorem c9_lineno_validation_witness :
    ((0 : Int) ≤ 3) ∧
    (((∃ r, TabDataLine.make none none (some (.vstr (("three").toList))) = .ok r) ↔
       (∃ m : Int, 0 ≤ m ∧ pyToInt (.vstr (("three").toList)) = .ok m)) ∧
     (∀ e, TabDataLine.make none none (some (.vstr (("three").toList))) = .error e →
       e = .valueError) ∧
     TabDataLine.make none none (some (.vint 3)) =
       .ok { data := [], names := [], lineno := some 3 }) :=
  ⟨by decide, c9_lineno_validation (.vstr (("three").toList)) 3 (by decide)⟩

/-- Claim C10 counterexample: a record built from the two-character string
consisting of a space and the letter a (one tab-separated value) serializes to
the single letter a, not to the original string: construction strips
surrounding whitespace before splitting, so the round trip fails. -/
theorem c10_counterexample :
    (TabDataLine.make (some ((" a").toList)) none none).map TabDataLine.serialize =
      .ok (("a").toList) ∧
    ((("a").toList : Chars) ≠ (" a").toList) := by
  exact ⟨rfl, by decide⟩

/-- Claim C10 (amended): for every nonempty list of tab-free values whose
tab-join carries no leading or trailing whitespace (so that the strip in the
constructor is the identity), the record built from the joined string with no
header has exactly one field per value and serializes back to the joined
string, with single tabs between fields and no trailing delimiter. -/
theorem c10_roundtrip_of_stripped (vs : List Chars) (h0 : vs ≠ [])
    (h1 : ∀ v ∈ vs, ('\t') ∉ v) (h2 : pyStrip (joinTab vs) = joinTab vs) :
    ∃ r, TabDataLine.make (some (joinTab vs)) none none = .ok r ∧
      r.len = vs.length ∧ r.serialize = joinTab vs := by
  refine ⟨{ data := vs, names := [], lineno := none }, ?_, ?_, rfl⟩
  · simp [TabDataLine.make, h2, splitTab_joinTab vs h0 h1]
  · simp [TabDataLine.len]

/-- Witness for the amended Claim C10 on the values chr1, 1, 234. -/
theorem c10_roundtrip_of_stripped_witness :
    (c10Values ≠ []) ∧ (∀ v ∈ c10Values, ('\t') ∉ v) ∧
    (pyStrip (joinTab c10Values) = joinTab c10Values) ∧
    (∃ r, TabDataLine.make (some (joinTab c10Values)) none none = .ok r ∧
      r.len = c10Values.length ∧ r.serialize = joinTab c10Values) :=
  ⟨by decide, by decide, by decide,
    c10_roundtrip_of_stripped c10Values (by decide) (by decide) (by decide)⟩

